import Mathlib

/-!
A shallow embedding of the CHIP-8 interpreter core (`src/chip.rs`).

The Rust source keeps the whole machine in one mutable struct `Chip` and
advances it one instruction at a time in `Chip::tick`.  This file embeds that
state and the fetch–decode–execute cycle as pure Lean functions and proves
properties of them.

Modelling conventions:
* Machine integers (`u8`, `u16`, `usize`) become `Nat`; where the source wraps
  (`overflowing_add` / `overflowing_sub` on `u8`, `u8` shifts), the embedding
  takes the result `% 256` explicitly.  Well-formedness facts guaranteed in
  Rust by the types (register values `< 256`, array lengths `16` / `4096` /
  `2048`) appear as hypotheses of the theorems that need them.
* Bit-level decoding of the 16-bit instruction word is rendered with division
  and remainder: `(inst >> 8) & 0x0F` becomes `inst / 0x100 % 0x10`,
  `inst & 0x0FFF` becomes `inst % 0x1000`, and the mask test
  `(inst & 0xF000) == 0x8000` becomes `inst / 0x1000 = 0x8` — equivalent for
  every 16-bit word.
* Fatal conditions (the alignment `assert!`, slice/array indexing out of
  bounds, the `usize` underflow of `sp -= 1`, the `u16` overflow of
  `self.i += …`, `todo!()`, and the unknown-opcode `panic!`) become `.error`
  results of an explicit `Fault`; the interpreter step is
  `tick : Chip → Except Fault Chip`.
* The fixed-size Rust arrays (`[u8; 0x1000]`, `[bool; 64*32]`, `[u8; 0x10]`,
  `[u16; 16]`) become `List Nat` / `List Bool`; reads are `List.getD _ _ 0`
  and writes are `List.set`, guarded by the same bounds the Rust indexing
  checks.
-/

/-- Fatal conditions of the interpreter core: the alignment `assert!`,
out-of-bounds array/slice indexing, the `usize` underflow of `sp -= 1` in `RET`, the `u16` overflow of `ADD I, Vx`, the `todo!()` for an unknown
`0x8xy_` sub-operation, and the unknown-opcode `panic!`. -/
inductive Fault where
  | alignment
  | oob
  | underflow
  | overflow
  | todoOp
  | unimplemented
deriving DecidableEq

/-- Models a Rust `for i in 0..n` loop whose body can fault: the body `f` is
applied at indices `0, 1, …, n-1` in ascending order, stopping at the first
`.error`. -/
def forRange {α : Type} (f : α → Nat → Except Fault α) : Nat → α → Except Fault α
  | 0, a => .ok a
  | n + 1, a =>
    match forRange f n a with
    | .ok b => f b n
    | .error e => .error e

/-- One frame-buffer write of the sprite loop: `self.screen[idx] ^= p`,
faulting if `idx` is out of bounds (the Rust indexing panic). -/
def xorPixel (s : List Bool) (idx : Nat) (p : Bool) : Except Fault (List Bool) :=
  if idx < s.length then .ok (s.set idx (xor (s.getD idx false) p)) else .error .oob

/-- The inner `for col in 0..8` loop of `DRW`: bit `7 - col` of the sprite
`byte` (most significant bit first, `(byte & (1 << (7-col))) > 0` in the
source) is XORed into the frame buffer at linear index `offset + col`. -/
def drawRow (byte offset : Nat) (s : List Bool) : Except Fault (List Bool) :=
  forRange (fun s col => xorPixel s (offset + col) (decide (byte / 2 ^ (7 - col) % 2 = 1))) 8 s

/-- The outer `for row in 0..nibble` loop of `DRW`: each row reads the sprite
byte `memory[i + row]` (faulting when out of bounds) and draws it at linear
offset `(row + y) * 64 + x`. -/
def drawSprite (mem : List Nat) (iReg x y n : Nat) (s : List Bool) : Except Fault (List Bool) :=
  forRange (fun s row =>
    if iReg + row < mem.length then
      drawRow (mem.getD (iReg + row) 0) ((row + y) * 64 + x) s
    else .error .oob) n s

/-- The `LD [I], Vx` loop: `for i in 0..(x+1) { memory[addr + i] = v[i] }`,
faulting on an out-of-bounds memory index. -/
def storeRegs (mem v : List Nat) (addr count : Nat) : Except Fault (List Nat) :=
  forRange (fun m k =>
    if addr + k < m.length then .ok (m.set (addr + k) (v.getD k 0)) else .error .oob) count mem

/-- The `LD Vx, [I]` loop: `for i in 0..(x+1) { v[i] = memory[addr + i] }`,
faulting on an out-of-bounds memory index. -/
def loadRegs (mem v : List Nat) (addr count : Nat) : Except Fault (List Nat) :=
  forRange (fun w k =>
    if addr + k < mem.length then .ok (w.set k (mem.getD (addr + k) 0)) else .error .oob) count v

/-- The machine state of `struct Chip`: frame buffer (`[bool; 64*32]`),
memory (`[u8; 0x1000]`), the sixteen registers (`[u8; 0x10]`), the index
register `i`, both timers, the call stack (`[u16; 16]`) with its pointer
`sp`, and the program counter `pc`. -/
structure Chip where
  screen : List Bool
  memory : List Nat
  v : List Nat
  i : Nat
  delay_timer : Nat
  sound_timer : Nat
  stack : List Nat
  sp : Nat
  pc : Nat
deriving DecidableEq

/-- Models `Chip::new`: the fully zeroed machine. -/
def Chip.new : Chip :=
  { screen := List.replicate (64 * 32) false
    memory := List.replicate 0x1000 0
    v := List.replicate 0x10 0
    i := 0
    delay_timer := 0
    sound_timer := 0
    stack := List.replicate 16 0
    sp := 0
    pc := 0 }

/-- Models `Chip::reset`: zero the registers (`fill(0)`), the index register, both
timers, the stack and `sp`, and set `pc = 0x200`.  Memory and the frame
buffer are not touched. -/
def Chip.reset (c : Chip) : Chip :=
  { c with
    v := c.v.map fun _ => 0
    i := 0
    delay_timer := 0
    sound_timer := 0
    stack := c.stack.map fun _ => 0
    sp := 0
    pc := 0x200 }

/-- The big-endian 16-bit instruction word at `c.pc`:
`memory[pc] * 256 + memory[pc+1]` (`read_u16::<BigEndian>` in the source). -/
def instAt (c : Chip) : Nat :=
  c.memory.getD c.pc 0 * 256 + c.memory.getD (c.pc + 1) 0

/-- Models `Chip::next_instruction`: advance `pc` by two and read the big-endian
word at the old `pc`, faulting when the two-byte slice is out of bounds. -/
def next_instruction (c : Chip) : Except Fault (Nat × Chip) :=
  if c.pc + 2 ≤ c.memory.length then
    .ok (instAt c, { c with pc := c.pc + 2 })
  else .error .oob

/-- The `match op` of the `0x8xy_` family in `Chip::tick`.  Both operands are
read before any write; for the arithmetic/shift operations `V[x]` is written
first and `V[0xF]` second (so the flag write wins when `x = 0xF`).  Wrapping
`u8` arithmetic is expressed with `% 256` (for subtraction,
`(a + 256 - b) % 256`, the wrapped difference of byte values). -/
def exec8 (c : Chip) (x y op : Nat) : Except Fault Chip :=
  match op with
  | 0x0 => .ok { c with v := c.v.set x (c.v.getD y 0) }
  | 0x1 => .ok { c with v := c.v.set x (c.v.getD x 0 ||| c.v.getD y 0) }
  | 0x2 => .ok { c with v := c.v.set x (c.v.getD x 0 &&& c.v.getD y 0) }
  | 0x3 => .ok { c with v := c.v.set x (c.v.getD x 0 ^^^ c.v.getD y 0) }
  | 0x4 => .ok { c with v := (c.v.set x ((c.v.getD x 0 + c.v.getD y 0) % 256)).set 0xF (if 256 ≤ c.v.getD x 0 + c.v.getD y 0 then 1 else 0) }
  | 0x5 => .ok { c with v := (c.v.set x ((c.v.getD x 0 + 256 - c.v.getD y 0) % 256)).set 0xF (if c.v.getD y 0 ≤ c.v.getD x 0 then 1 else 0) }
  | 0x6 => .ok { c with v := (c.v.set x (c.v.getD y 0 / 2)).set 0xF (c.v.getD y 0 % 2) }
  | 0x7 => .ok { c with v := (c.v.set x ((c.v.getD y 0 + 256 - c.v.getD x 0) % 256)).set 0xF (if c.v.getD x 0 ≤ c.v.getD y 0 then 1 else 0) }
  | 0xE => .ok { c with v := (c.v.set x (c.v.getD y 0 * 2 % 256)).set 0xF (c.v.getD y 0 / 128 % 2) }
  | _ => .error .todoOp

/-- The decode/dispatch chain of `Chip::tick`, applied to the post-fetch
state `c` (its `pc` already advanced past the instruction) and the fetched
word `inst`.  The branches appear in the same order as in the source; the final branch is
the unknown-opcode `panic!`. -/
def exec (c : Chip) (inst : Nat) : Except Fault Chip :=
  if inst = 0x00E0 then
    .ok { c with screen := c.screen.map fun _ => false }
  else if inst = 0x00EE then
    if c.sp = 0 then .error .underflow
    else if c.sp - 1 < c.stack.length then
      .ok { c with sp := c.sp - 1, pc := c.stack.getD (c.sp - 1) 0 }
    else .error .oob
  else if inst / 0x1000 = 0x1 then
    .ok { c with pc := inst % 0x1000 }
  else if inst / 0x1000 = 0x2 then
    if c.sp < c.stack.length then
      .ok { c with stack := c.stack.set c.sp c.pc, sp := c.sp + 1, pc := inst % 0x1000 }
    else .error .oob
  else if inst / 0x1000 = 0x3 then
    if c.v.getD (inst / 0x100 % 0x10) 0 = inst % 0x100 then .ok { c with pc := c.pc + 2 } else .ok c
  else if inst / 0x1000 = 0x4 then
    if c.v.getD (inst / 0x100 % 0x10) 0 ≠ inst % 0x100 then .ok { c with pc := c.pc + 2 } else .ok c
  else if inst / 0x1000 = 0x5 then
    if c.v.getD (inst / 0x100 % 0x10) 0 = c.v.getD (inst / 0x10 % 0x10) 0 then
      .ok { c with pc := c.pc + 2 } else .ok c
  else if inst / 0x1000 = 0x6 then
    .ok { c with v := c.v.set (inst / 0x100 % 0x10) (inst % 0x100) }
  else if inst / 0x1000 = 0x7 then
    .ok { c with v := c.v.set (inst / 0x100 % 0x10)
                        ((c.v.getD (inst / 0x100 % 0x10) 0 + inst % 0x100) % 256) }
  else if inst / 0x1000 = 0x8 then
    exec8 c (inst / 0x100 % 0x10) (inst / 0x10 % 0x10) (inst % 0x10)
  else if inst / 0x1000 = 0x9 then
    if c.v.getD (inst / 0x100 % 0x10) 0 ≠ c.v.getD (inst / 0x10 % 0x10) 0 then
      .ok { c with pc := c.pc + 2 } else .ok c
  else if inst / 0x1000 = 0xA then
    .ok { c with i := inst % 0x1000 }
  else if inst / 0x1000 = 0xD then
    match drawSprite c.memory c.i (c.v.getD (inst / 0x100 % 0x10) 0)
        (c.v.getD (inst / 0x10 % 0x10) 0) (inst % 0x10) c.screen with
    | .ok s => .ok { c with screen := s }
    | .error e => .error e
  else if inst / 0x1000 = 0xF ∧ inst % 0x100 = 0x1E then
    if c.i + c.v.getD (inst / 0x100 % 0x10) 0 < 0x10000 then
      .ok { c with i := c.i + c.v.getD (inst / 0x100 % 0x10) 0 }
    else .error .overflow
  else if inst / 0x1000 = 0xF ∧ inst % 0x100 = 0x33 then
    let vx := c.v.getD (inst / 0x100 % 0x10) 0
    let m := ((c.memory.set c.i (vx / 100)).set (c.i + 1) (vx % 100 / 10)).set (c.i + 2) (vx % 10)
    if c.i + 2 < c.memory.length then
      .ok { c with memory := m }
    else .error .oob
  else if inst / 0x1000 = 0xF ∧ inst % 0x100 = 0x55 then
    match storeRegs c.memory c.v c.i (inst / 0x100 % 0x10 + 1) with
    | .ok m => .ok { c with memory := m }
    | .error e => .error e
  else if inst / 0x1000 = 0xF ∧ inst % 0x100 = 0x65 then
    match loadRegs c.memory c.v c.i (inst / 0x100 % 0x10 + 1) with
    | .ok w => .ok { c with v := w }
    | .error e => .error e
  else .error .unimplemented

/-- Models `Chip::tick`: the alignment `assert!`, the fetch, then decode/execute. -/
def tick (c : Chip) : Except Fault Chip :=
  if c.pc % 2 = 0 then
    match next_instruction c with
    | .ok (inst, c) => exec c inst
    | .error e => .error e
  else .error .alignment

/-- Instruction words the decode chain of `Chip::tick` actually matches, as
the source checks them: the `0x5`, `0x9` and `0xD` families are recognised by
their top nibble alone, the `0x8` family additionally needs a low nibble in
`{0,…,7,0xE}`, and the `0xF` family a low byte in `{0x1E, 0x33, 0x55, 0x65}`. -/
def RecognizedCode (inst : Nat) : Prop :=
  inst = 0x00E0 ∨ inst = 0x00EE ∨
  inst / 0x1000 = 0x1 ∨ inst / 0x1000 = 0x2 ∨ inst / 0x1000 = 0x3 ∨
  inst / 0x1000 = 0x4 ∨ inst / 0x1000 = 0x5 ∨ inst / 0x1000 = 0x6 ∨
  inst / 0x1000 = 0x7 ∨
  (inst / 0x1000 = 0x8 ∧
    (inst % 0x10 = 0x0 ∨ inst % 0x10 = 0x1 ∨ inst % 0x10 = 0x2 ∨ inst % 0x10 = 0x3 ∨
     inst % 0x10 = 0x4 ∨ inst % 0x10 = 0x5 ∨ inst % 0x10 = 0x6 ∨ inst % 0x10 = 0x7 ∨
     inst % 0x10 = 0xE)) ∨
  inst / 0x1000 = 0x9 ∨ inst / 0x1000 = 0xA ∨ inst / 0x1000 = 0xD ∨
  (inst / 0x1000 = 0xF ∧
    (inst % 0x100 = 0x1E ∨ inst % 0x100 = 0x33 ∨ inst % 0x100 = 0x55 ∨ inst % 0x100 = 0x65))

/-- Instruction words matching the opcode patterns listed in the table of the spec: as there, `0x5xy0` and `0x9xy0` require a zero low nibble. -/
def RecognizedListed (inst : Nat) : Prop :=
  inst = 0x00E0 ∨ inst = 0x00EE ∨
  inst / 0x1000 = 0x1 ∨ inst / 0x1000 = 0x2 ∨ inst / 0x1000 = 0x3 ∨
  inst / 0x1000 = 0x4 ∨ (inst / 0x1000 = 0x5 ∧ inst % 0x10 = 0x0) ∨
  inst / 0x1000 = 0x6 ∨ inst / 0x1000 = 0x7 ∨
  (inst / 0x1000 = 0x8 ∧
    (inst % 0x10 = 0x0 ∨ inst % 0x10 = 0x1 ∨ inst % 0x10 = 0x2 ∨ inst % 0x10 = 0x3 ∨
     inst % 0x10 = 0x4 ∨ inst % 0x10 = 0x5 ∨ inst % 0x10 = 0x6 ∨ inst % 0x10 = 0x7 ∨
     inst % 0x10 = 0xE)) ∨
  (inst / 0x1000 = 0x9 ∧ inst % 0x10 = 0x0) ∨ inst / 0x1000 = 0xA ∨ inst / 0x1000 = 0xD ∨
  (inst / 0x1000 = 0xF ∧
    (inst % 0x100 = 0x1E ∨ inst % 0x100 = 0x33 ∨ inst % 0x100 = 0x55 ∨ inst % 0x100 = 0x65))

/-- Whether a step result is a successful state (no fault). -/
def stepOk : Except Fault Chip → Bool
  | .ok _ => true
  | .error _ => false

instance : DecidablePred RecognizedCode := by
  intro inst; unfold RecognizedCode; infer_instance

instance : DecidablePred RecognizedListed := by
  intro inst; unfold RecognizedListed; infer_instance

section helpers

variable {α : Type}

/-- getD after set at the same index. -/
theorem getD_set_self (l : List Nat) (i x : Nat) (h : i < l.length) :
    (l.set i x).getD i 0 = x := by
  simp [List.getD_eq_getElem?_getD, List.getElem?_set_self, h]

/-- getD after set at a different index. -/
theorem getD_set_ne (l : List Nat) (i j x : Nat) (h : j ≠ i) :
    (l.set i x).getD j 0 = l.getD j 0 := by
  simp [List.getD_eq_getElem?_getD, List.getElem?_set_ne (Ne.symm h)]

/-- An error of the loop body at index 0 is the result of the whole loop. -/
theorem forRange_error_first (f : α → Nat → Except Fault α) (n : Nat) (a : α) (e : Fault)
    (h : f a 0 = .error e) : forRange f (n + 1) a = .error e := by
  induction n with
  | zero => simpa [forRange] using h
  | succ m ih =>
    rw [forRange, ih]

/-- A property preserved by every successful loop-body step is preserved by
the loop. -/
theorem forRange_pres (P : α → Prop) (f : α → Nat → Except Fault α)
    (hf : ∀ a k b, P a → f a k = .ok b → P b) :
    ∀ (n : Nat) (a b : α), P a → forRange f n a = .ok b → P b := by
  intro n
  induction n with
  | zero => intro a b hP h; cases h; exact hP
  | succ m ih =>
    intro a b hP h
    unfold forRange at h
    cases hm : forRange f m a with
    | ok mid => rw [hm] at h; exact hf mid m b (ih a mid hP hm) h
    | error e => rw [hm] at h; cases h

/-- When the loop body can only fail with fault `e0`, so can the loop. -/
theorem forRange_error_only (f : α → Nat → Except Fault α) (e0 : Fault)
    (hf : ∀ a k e, f a k = .error e → e = e0) :
    ∀ (n : Nat) (a : α) (e : Fault), forRange f n a = .error e → e = e0 := by
  intro n
  induction n with
  | zero => intro a e h; cases h
  | succ m ih =>
    intro a e h
    unfold forRange at h
    cases hm : forRange f m a with
    | ok mid => rw [hm] at h; exact hf mid m e h
    | error e' =>
      rw [hm] at h
      cases h
      exact ih a e hm

/-- A successful loop ran its body successfully at every index below `n`,
from an intermediate state satisfying any invariant `P` preserved by the
body. -/
theorem forRange_ok_step (P : α → Prop) (f : α → Nat → Except Fault α)
    (hf : ∀ a k b, P a → f a k = .ok b → P b) :
    ∀ (n : Nat) (a b : α), P a → forRange f n a = .ok b →
      ∀ k, k < n → ∃ x y, P x ∧ f x k = .ok y := by
  intro n
  induction n with
  | zero => intro a b _ _ k hk; omega
  | succ m ih =>
    intro a b hP h k hk
    unfold forRange at h
    cases hm : forRange f m a with
    | ok mid =>
      rw [hm] at h
      rcases Nat.lt_or_ge k m with hlt | hge
      · exact ih a mid hP hm k hlt
      · have hk' : k = m := by omega
        subst hk'
        exact ⟨mid, b, forRange_pres P f hf k a mid hP hm, h⟩
    | error e => rw [hm] at h; cases h

/-- If every loop-body step succeeds (given the invariant), the loop
succeeds and the invariant holds of the result. -/
theorem forRange_ok_of (P : α → Prop) (f : α → Nat → Except Fault α) :
    ∀ (n : Nat) (a : α), P a → (∀ x k, k < n → P x → ∃ y, f x k = .ok y ∧ P y) →
      ∃ b, forRange f n a = .ok b ∧ P b := by
  intro n
  induction n with
  | zero => intro a hP _; exact ⟨a, rfl, hP⟩
  | succ m ih =>
    intro a hP hstep
    obtain ⟨mid, hmid, hPmid⟩ := ih a hP (fun x k hk hx => hstep x k (by omega) hx)
    obtain ⟨b, hb, hPb⟩ := hstep mid m (by omega) hPmid
    exact ⟨b, by simp [forRange, hmid, hb], hPb⟩

end helpers

/-- Under the alignment and fetch-bounds conditions, one `tick` is `exec` of
the fetched word on the post-fetch state. -/
theorem tick_eq (c : Chip) (hpc : c.pc % 2 = 0) (hm : c.pc + 2 ≤ c.memory.length) :
    tick c = exec { c with pc := c.pc + 2 } (instAt c) := by
  unfold tick next_instruction
  rw [if_pos hpc, if_pos hm]

/-- The register-store loop succeeds when all `count` target addresses are in
bounds; it preserves the memory length, writes `v[k]` at `addr + k`, and
leaves every other cell unchanged. -/
theorem storeRegs_ok (mem v : List Nat) (addr count : Nat)
    (hb : ∀ k, k < count → addr + k < mem.length) :
    ∃ m, storeRegs mem v addr count = .ok m ∧ m.length = mem.length ∧
      (∀ k, k < count → m.getD (addr + k) 0 = v.getD k 0) ∧
      (∀ j, (∀ k, k < count → j ≠ addr + k) → m.getD j 0 = mem.getD j 0) := by
  induction count with
  | zero => exact ⟨mem, rfl, rfl, fun k hk => absurd hk (by omega), fun j _ => rfl⟩
  | succ n ih =>
    obtain ⟨m, hm, hlen, hin, hout⟩ := ih (fun k hk => hb k (by omega))
    have hbn : addr + n < m.length := by rw [hlen]; exact hb n (by omega)
    refine ⟨m.set (addr + n) (v.getD n 0), ?_, ?_, ?_, ?_⟩
    · unfold storeRegs at hm ⊢
      rw [forRange, hm]
      simp [hbn]
    · rw [List.length_set, hlen]
    · intro k hk
      rcases Nat.lt_or_ge k n with hlt | hge
      · rw [getD_set_ne m (addr + n) (addr + k) _ (by omega)]
        exact hin k hlt
      · have : k = n := by omega
        subst this
        exact getD_set_self m (addr + k) _ hbn
    · intro j hj
      rw [getD_set_ne m (addr + n) j _ (hj n (by omega))]
      exact hout j (fun k hk => hj k (by omega))

/-- The register-load loop succeeds when all `count` source addresses are in
bounds; it preserves the register-file length, loads `memory[addr + k]` into
`v[k]`, and leaves every other register unchanged. -/
theorem loadRegs_ok (mem v : List Nat) (addr count : Nat)
    (hb : ∀ k, k < count → addr + k < mem.length) :
    ∃ w, loadRegs mem v addr count = .ok w ∧ w.length = v.length ∧
      (∀ k, k < count → k < v.length → w.getD k 0 = mem.getD (addr + k) 0) ∧
      (∀ j, (∀ k, k < count → j ≠ k) → w.getD j 0 = v.getD j 0) := by
  induction count with
  | zero => exact ⟨v, rfl, rfl, fun k hk => absurd hk (by omega), fun j _ => rfl⟩
  | succ n ih =>
    obtain ⟨w, hw, hlen, hin, hout⟩ := ih (fun k hk => hb k (by omega))
    refine ⟨w.set n (mem.getD (addr + n) 0), ?_, ?_, ?_, ?_⟩
    · unfold loadRegs at hw ⊢
      rw [forRange, hw]
      simp [hb n (by omega)]
    · rw [List.length_set, hlen]
    · intro k hk hkv
      rcases Nat.lt_or_ge k n with hlt | hge
      · rw [getD_set_ne w n k _ (by omega)]
        exact hin k hlt hkv
      · have : k = n := by omega
        subst this
        exact getD_set_self w k _ (by omega)
    · intro j hj
      rw [getD_set_ne w n j _ (hj n (by omega))]
      exact hout j (fun k hk => hj k (by omega))

/-- A sprite row aimed entirely past the end of the frame buffer faults at
its first column. -/
theorem drawRow_oob (byte offset : Nat) (s : List Bool) (h : s.length ≤ offset) :
    drawRow byte offset s = .error .oob := by
  unfold drawRow
  refine forRange_error_first _ 7 s .oob ?_
  have hn : ¬ (offset + 0 < s.length) := by omega
  simp [xorPixel, hn]
  omega

/-- A sprite row whose eight linear indices are all in bounds draws
successfully and preserves the frame-buffer length. -/
theorem drawRow_ok (byte offset : Nat) (s : List Bool) (h : offset + 7 < s.length) :
    ∃ t, drawRow byte offset s = .ok t ∧ t.length = s.length := by
  unfold drawRow
  refine forRange_ok_of (fun l => l.length = s.length) _ 8 s rfl ?_
  intro x k hk hx
  have hb : offset + k < x.length := by omega
  refine ⟨x.set (offset + k) (xor (x.getD (offset + k) false) (decide (byte / 2 ^ (7 - k) % 2 = 1))), ?_, ?_⟩
  · unfold xorPixel
    rw [if_pos hb]
  · simp only [List.length_set]
    exact hx

/-- The only fault a sprite row can raise is the out-of-bounds fault. -/
theorem drawRow_error_only (byte offset : Nat) (s : List Bool) (e : Fault)
    (h : drawRow byte offset s = .error e) : e = .oob := by
  refine forRange_error_only _ .oob ?_ 8 s e h
  intro a k e' h'
  unfold xorPixel at h'
  by_cases hb : offset + k < a.length
  · rw [if_pos hb] at h'; cases h'
  · rw [if_neg hb] at h'; cases h'; rfl

/-- A successful sprite row preserves the frame-buffer length. -/
theorem drawRow_length (byte offset : Nat) (s t : List Bool)
    (h : drawRow byte offset s = .ok t) : t.length = s.length := by
  refine forRange_pres (fun l => l.length = s.length) _ ?_ 8 s t rfl h
  intro a k b ha hb
  unfold xorPixel at hb
  by_cases hlt : offset + k < a.length
  · rw [if_pos hlt] at hb; cases hb; rw [List.length_set]; exact ha
  · rw [if_neg hlt] at hb; cases hb

/-- The only fault the sprite loop can raise is the out-of-bounds fault. -/
theorem drawSprite_error_only (mem : List Nat) (iReg x y n : Nat) (s : List Bool) (e : Fault)
    (h : drawSprite mem iReg x y n s = .error e) : e = .oob := by
  refine forRange_error_only _ .oob ?_ n s e h
  intro a k e' h'
  by_cases hb : iReg + k < mem.length
  · rw [if_pos hb] at h'; exact drawRow_error_only _ _ _ _ h'
  · rw [if_neg hb] at h'; cases h'; rfl

/-- When some sprite row `r < n` starts at or below the bottom of the 64×32
frame buffer (`32 ≤ y + r`), the sprite loop faults out of bounds. -/
theorem drawSprite_row_oob (mem : List Nat) (iReg x y n : Nat) (s : List Bool) (r : Nat)
    (hs : s.length = 64 * 32) (hr : r < n) (hy : 32 ≤ y + r) :
    drawSprite mem iReg x y n s = .error .oob := by
  cases h : drawSprite mem iReg x y n s with
  | ok b =>
    exfalso
    have hstep := forRange_ok_step (fun l => l.length = 64 * 32)
      (fun s row =>
        if iReg + row < mem.length then
          drawRow (mem.getD (iReg + row) 0) ((row + y) * 64 + x) s
        else .error .oob) ?_ n s b hs h r hr
    · obtain ⟨sr, yr, hsr, hok⟩ := hstep
      replace hok : (if iReg + r < mem.length then
          drawRow (mem.getD (iReg + r) 0) ((r + y) * 64 + x) sr
        else .error .oob) = .ok yr := hok
      by_cases hb : iReg + r < mem.length
      · rw [if_pos hb] at hok
        have hoff : sr.length ≤ (r + y) * 64 + x := by
          rw [hsr]; nlinarith
        rw [drawRow_oob _ _ _ hoff] at hok
        cases hok
      · rw [if_neg hb] at hok
        cases hok
    · intro a k b ha hb
      replace hb : (if iReg + k < mem.length then
          drawRow (mem.getD (iReg + k) 0) ((k + y) * 64 + x) a
        else .error .oob) = .ok b := hb
      by_cases hib : iReg + k < mem.length
      · rw [if_pos hib] at hb
        rw [drawRow_length _ _ _ _ hb]; exact ha
      · rw [if_neg hib] at hb; cases hb
  | error e =>
    rw [drawSprite_error_only _ _ _ _ _ _ _ h]

/-- Dispatch of the `0x8xy_` family: an instruction word with top nibble 8
runs `exec8` on the decoded nibbles. -/
theorem exec_8 (c : Chip) (inst : Nat) (h : inst / 0x1000 = 0x8) :
    exec c inst = exec8 c (inst / 0x100 % 0x10) (inst / 0x10 % 0x10) (inst % 0x10) := by
  have e0 : inst ≠ 0x00E0 := by omega
  have e1 : inst ≠ 0x00EE := by omega
  have d1 : inst / 0x1000 ≠ 0x1 := by omega
  have d2 : inst / 0x1000 ≠ 0x2 := by omega
  have d3 : inst / 0x1000 ≠ 0x3 := by omega
  have d4 : inst / 0x1000 ≠ 0x4 := by omega
  have d5 : inst / 0x1000 ≠ 0x5 := by omega
  have d6 : inst / 0x1000 ≠ 0x6 := by omega
  have d7 : inst / 0x1000 ≠ 0x7 := by omega
  unfold exec
  rw [if_neg e0, if_neg e1, if_neg d1, if_neg d2, if_neg d3, if_neg d4, if_neg d5,
    if_neg d6, if_neg d7, if_pos h]

/-- Dispatch of `CALL addr`: top nibble 2 pushes the return address (the
post-fetch `pc`) and jumps, faulting when the stack is full. -/
theorem exec_CALL (c : Chip) (inst : Nat) (h : inst / 0x1000 = 0x2) :
    exec c inst =
      (if c.sp < c.stack.length then
        .ok { c with stack := c.stack.set c.sp c.pc, sp := c.sp + 1, pc := inst % 0x1000 }
      else .error .oob) := by
  have e0 : inst ≠ 0x00E0 := by omega
  have e1 : inst ≠ 0x00EE := by omega
  have d1 : inst / 0x1000 ≠ 0x1 := by omega
  unfold exec
  rw [if_neg e0, if_neg e1, if_neg d1, if_pos h]

/-- Dispatch of `RET`: pops the saved return address, faulting on an empty
stack. -/
theorem exec_RET (c : Chip) :
    exec c 0x00EE =
      (if c.sp = 0 then .error .underflow
       else if c.sp - 1 < c.stack.length then
        .ok { c with sp := c.sp - 1, pc := c.stack.getD (c.sp - 1) 0 }
       else .error .oob) := by
  have e0 : (0x00EE : Nat) ≠ 0x00E0 := by omega
  unfold exec
  rw [if_neg e0, if_pos rfl]

/-- Dispatch of `DRW`: top nibble D runs the sprite loop and stores the
resulting frame buffer. -/
theorem exec_D (c : Chip) (inst : Nat) (h : inst / 0x1000 = 0xD) :
    exec c inst =
      (match drawSprite c.memory c.i (c.v.getD (inst / 0x100 % 0x10) 0)
          (c.v.getD (inst / 0x10 % 0x10) 0) (inst % 0x10) c.screen with
      | .ok s => .ok { c with screen := s }
      | .error e => .error e) := by
  have e0 : inst ≠ 0x00E0 := by omega
  have e1 : inst ≠ 0x00EE := by omega
  have d1 : inst / 0x1000 ≠ 0x1 := by omega
  have d2 : inst / 0x1000 ≠ 0x2 := by omega
  have d3 : inst / 0x1000 ≠ 0x3 := by omega
  have d4 : inst / 0x1000 ≠ 0x4 := by omega
  have d5 : inst / 0x1000 ≠ 0x5 := by omega
  have d6 : inst / 0x1000 ≠ 0x6 := by omega
  have d7 : inst / 0x1000 ≠ 0x7 := by omega
  have d8 : inst / 0x1000 ≠ 0x8 := by omega
  have d9 : inst / 0x1000 ≠ 0x9 := by omega
  have dA : inst / 0x1000 ≠ 0xA := by omega
  unfold exec
  rw [if_neg e0, if_neg e1, if_neg d1, if_neg d2, if_neg d3, if_neg d4, if_neg d5,
    if_neg d6, if_neg d7, if_neg d8, if_neg d9, if_neg dA, if_pos h]

/-- Dispatch of `LD [I], Vx`: top nibble F with low byte 0x55 runs the
register-store loop. -/
theorem exec_F55 (c : Chip) (inst : Nat) (hF : inst / 0x1000 = 0xF) (h55 : inst % 0x100 = 0x55) :
    exec c inst =
      (match storeRegs c.memory c.v c.i (inst / 0x100 % 0x10 + 1) with
      | .ok m => .ok { c with memory := m }
      | .error e => .error e) := by
  have e0 : inst ≠ 0x00E0 := by omega
  have e1 : inst ≠ 0x00EE := by omega
  have d1 : inst / 0x1000 ≠ 0x1 := by omega
  have d2 : inst / 0x1000 ≠ 0x2 := by omega
  have d3 : inst / 0x1000 ≠ 0x3 := by omega
  have d4 : inst / 0x1000 ≠ 0x4 := by omega
  have d5 : inst / 0x1000 ≠ 0x5 := by omega
  have d6 : inst / 0x1000 ≠ 0x6 := by omega
  have d7 : inst / 0x1000 ≠ 0x7 := by omega
  have d8 : inst / 0x1000 ≠ 0x8 := by omega
  have d9 : inst / 0x1000 ≠ 0x9 := by omega
  have dA : inst / 0x1000 ≠ 0xA := by omega
  have dD : inst / 0x1000 ≠ 0xD := by omega
  have f1 : ¬ (inst / 0x1000 = 0xF ∧ inst % 0x100 = 0x1E) := by omega
  have f2 : ¬ (inst / 0x1000 = 0xF ∧ inst % 0x100 = 0x33) := by omega
  unfold exec
  rw [if_neg e0, if_neg e1, if_neg d1, if_neg d2, if_neg d3, if_neg d4, if_neg d5,
    if_neg d6, if_neg d7, if_neg d8, if_neg d9, if_neg dA, if_neg dD, if_neg f1,
    if_neg f2, if_pos ⟨hF, h55⟩]

/-- Dispatch of `LD Vx, [I]`: top nibble F with low byte 0x65 runs the
register-load loop. -/
theorem exec_F65 (c : Chip) (inst : Nat) (hF : inst / 0x1000 = 0xF) (h65 : inst % 0x100 = 0x65) :
    exec c inst =
      (match loadRegs c.memory c.v c.i (inst / 0x100 % 0x10 + 1) with
      | .ok w => .ok { c with v := w }
      | .error e => .error e) := by
  have e0 : inst ≠ 0x00E0 := by omega
  have e1 : inst ≠ 0x00EE := by omega
  have d1 : inst / 0x1000 ≠ 0x1 := by omega
  have d2 : inst / 0x1000 ≠ 0x2 := by omega
  have d3 : inst / 0x1000 ≠ 0x3 := by omega
  have d4 : inst / 0x1000 ≠ 0x4 := by omega
  have d5 : inst / 0x1000 ≠ 0x5 := by omega
  have d6 : inst / 0x1000 ≠ 0x6 := by omega
  have d7 : inst / 0x1000 ≠ 0x7 := by omega
  have d8 : inst / 0x1000 ≠ 0x8 := by omega
  have d9 : inst / 0x1000 ≠ 0x9 := by omega
  have dA : inst / 0x1000 ≠ 0xA := by omega
  have dD : inst / 0x1000 ≠ 0xD := by omega
  have f1 : ¬ (inst / 0x1000 = 0xF ∧ inst % 0x100 = 0x1E) := by omega
  have f2 : ¬ (inst / 0x1000 = 0xF ∧ inst % 0x100 = 0x33) := by omega
  have f3 : ¬ (inst / 0x1000 = 0xF ∧ inst % 0x100 = 0x55) := by omega
  unfold exec
  rw [if_neg e0, if_neg e1, if_neg d1, if_neg d2, if_neg d3, if_neg d4, if_neg d5,
    if_neg d6, if_neg d7, if_neg d8, if_neg d9, if_neg dA, if_neg dD, if_neg f1,
    if_neg f2, if_neg f3, if_pos ⟨hF, h65⟩]

deriving instance DecidableEq for Except

/-- A small machine state used to instantiate theorems at concrete inputs. -/
def mkChip (mem v : List Nat) (iR : Nat) (s : List Bool) : Chip :=
  { screen := s
    memory := mem
    v := v
    i := iR
    delay_timer := 0
    sound_timer := 0
    stack := List.replicate 16 0
    sp := 0
    pc := 0 }

/-- C7: stepping a machine whose program counter is odd fails
deterministically with the alignment fault — the `assert!` fires before any
fetch or execution, and no state is produced. -/
theorem C7_odd_pc_alignment (c : Chip) (h : c.pc % 2 = 1) :
    tick c = .error .alignment := by
  unfold tick
  rw [if_neg (by omega)]

/-- C7 witness: the alignment fault at a concrete machine with `pc = 1`. -/
theorem C7_witness :
    tick { mkChip [0x00, 0xE0] (List.replicate 16 0) 0 [] with pc := 1 } = .error .alignment :=
  C7_odd_pc_alignment _ (by decide)

/-- C1 (amended): executing `ADD Vx, Vy` (0x8xy4) on byte values
`a = V[x]`, `b = V[y]` succeeds, sets `V[0xF]` to 1 exactly when
`a + b > 255` and to 0 otherwise, advances `pc` by the fetch, and — provided
`x ≠ 0xF`, since the flag is written after the sum — sets `V[x]` to
`(a + b) % 256`. -/
theorem C1_add_vx_vy (c : Chip) (x y a b : Nat)
    (hx : x < 16) (hy : y < 16) (hv : c.v.length = 16)
    (hpc : c.pc % 2 = 0) (hm : c.pc + 2 ≤ c.memory.length)
    (hinst : instAt c = 0x8000 + x * 256 + y * 16 + 4)
    (ha : c.v.getD x 0 = a) (hb : c.v.getD y 0 = b)
    (ha2 : a < 256) (hb2 : b < 256) :
    ∃ c', tick c = .ok c' ∧
      c'.v.getD 0xF 0 = (if 255 < a + b then 1 else 0) ∧
      (x ≠ 0xF → c'.v.getD x 0 = (a + b) % 256) ∧
      c'.pc = c.pc + 2 := by
  rw [tick_eq c hpc hm, hinst, exec_8 _ _ (by omega)]
  have hX : (0x8000 + x * 256 + y * 16 + 4) / 0x100 % 0x10 = x := by omega
  have hY : (0x8000 + x * 256 + y * 16 + 4) / 0x10 % 0x10 = y := by omega
  have hOp : (0x8000 + x * 256 + y * 16 + 4) % 0x10 = 4 := by omega
  rw [hX, hY, hOp]
  unfold exec8
  refine ⟨_, rfl, ?_, ?_, rfl⟩
  · rw [getD_set_self _ _ _ (by rw [List.length_set, hv]; omega), ha, hb]
    by_cases hc : 255 < a + b
    · rw [if_pos (by omega : 256 ≤ a + b), if_pos hc]
    · rw [if_neg (by omega : ¬ 256 ≤ a + b), if_neg hc]
  · intro hxF
    rw [getD_set_ne _ _ _ _ hxF, getD_set_self _ _ _ (by rw [hv]; omega), ha, hb]

/-- C1 counterexample: with `x = 0xF` the flag write lands after the sum
write, so `V[x]` does not end up as `(a + b) % 256`: with
`V[0xF] = V[0x0] = 1` the instruction 0x8F04 leaves `V[0xF] = 0`,
not `(1 + 1) % 256 = 2` as the claim requires. -/
theorem C1_counterexample :
    instAt (mkChip [0x8F, 0x04] [1, 0, 0, 0, 0, 0, 0, 0, 0, 0, 0, 0, 0, 0, 0, 1] 0 []) = 0x8000 + 15 * 256 + 0 * 16 + 4 ∧
    (mkChip [0x8F, 0x04] [1, 0, 0, 0, 0, 0, 0, 0, 0, 0, 0, 0, 0, 0, 0, 1] 0 []).v.getD 15 0 = 1 ∧
    (mkChip [0x8F, 0x04] [1, 0, 0, 0, 0, 0, 0, 0, 0, 0, 0, 0, 0, 0, 0, 1] 0 []).v.getD 0 0 = 1 ∧
    (1 + 1) % 256 = 2 ∧
    (tick (mkChip [0x8F, 0x04] [1, 0, 0, 0, 0, 0, 0, 0, 0, 0, 0, 0, 0, 0, 0, 1] 0 [])).map (fun c => c.v.getD 15 0) = .ok 0 := by
  decide

/-- C1 witness: the amended theorem applied at `x = 0`, `y = 1`,
`a = 200`, `b = 100`. -/
theorem C1_witness :
    ∃ c', tick (mkChip [0x80, 0x14] [200, 100, 0, 0, 0, 0, 0, 0, 0, 0, 0, 0, 0, 0, 0, 0] 0 []) = .ok c' ∧
      c'.v.getD 0xF 0 = (if 255 < 200 + 100 then 1 else 0) ∧
      (0 ≠ 0xF → c'.v.getD 0 0 = (200 + 100) % 256) ∧
      c'.pc = (mkChip [0x80, 0x14] [200, 100, 0, 0, 0, 0, 0, 0, 0, 0, 0, 0, 0, 0, 0, 0] 0 []).pc + 2 :=
  C1_add_vx_vy _ 0 1 200 100 (by decide) (by decide) (by decide) (by decide) (by decide)
    (by decide) (by decide) (by decide) (by decide) (by decide)

/-- C2 (amended): executing `SUB Vx, Vy` (0x8xy5) on byte values
`a = V[x]`, `b = V[y]` succeeds, sets `V[0xF]` to 1 exactly when `a ≥ b`
(the comparison evaluated on the pre-subtraction values) and to 0 otherwise,
advances `pc` by the fetch, and — provided `x ≠ 0xF`, since the flag is
written after the difference — sets `V[x]` to `(a - b) mod 256`, the
difference taken in the integers. -/
theorem C2_sub_vx_vy (c : Chip) (x y a b : Nat)
    (hx : x < 16) (hy : y < 16) (hv : c.v.length = 16)
    (hpc : c.pc % 2 = 0) (hm : c.pc + 2 ≤ c.memory.length)
    (hinst : instAt c = 0x8000 + x * 256 + y * 16 + 5)
    (ha : c.v.getD x 0 = a) (hb : c.v.getD y 0 = b)
    (ha2 : a < 256) (hb2 : b < 256) :
    ∃ c', tick c = .ok c' ∧
      c'.v.getD 0xF 0 = (if b ≤ a then 1 else 0) ∧
      (x ≠ 0xF → (c'.v.getD x 0 : Int) = ((a : Int) - (b : Int)) % 256) ∧
      c'.pc = c.pc + 2 := by
  rw [tick_eq c hpc hm, hinst, exec_8 _ _ (by omega)]
  have hX : (0x8000 + x * 256 + y * 16 + 5) / 0x100 % 0x10 = x := by omega
  have hY : (0x8000 + x * 256 + y * 16 + 5) / 0x10 % 0x10 = y := by omega
  have hOp : (0x8000 + x * 256 + y * 16 + 5) % 0x10 = 5 := by omega
  rw [hX, hY, hOp]
  unfold exec8
  refine ⟨_, rfl, ?_, ?_, rfl⟩
  · rw [getD_set_self _ _ _ (by rw [List.length_set, hv]; omega), ha, hb]
  · intro hxF
    rw [getD_set_ne _ _ _ _ hxF, getD_set_self _ _ _ (by rw [hv]; omega), ha, hb]
    omega

/-- C2 counterexample: with `x = 0xF` the flag write lands after the
difference write, so `V[x]` does not end up as `(a - b) mod 256`: with
`V[0xF] = 5`, `V[0x0] = 3` the instruction 0x8F05 leaves `V[0xF] = 1`
(the borrow flag), not `(5 - 3) mod 256 = 2` as the claim requires. -/
theorem C2_counterexample :
    instAt (mkChip [0x8F, 0x05] [3, 0, 0, 0, 0, 0, 0, 0, 0, 0, 0, 0, 0, 0, 0, 5] 0 []) = 0x8000 + 15 * 256 + 0 * 16 + 5 ∧
    (mkChip [0x8F, 0x05] [3, 0, 0, 0, 0, 0, 0, 0, 0, 0, 0, 0, 0, 0, 0, 5] 0 []).v.getD 15 0 = 5 ∧
    (mkChip [0x8F, 0x05] [3, 0, 0, 0, 0, 0, 0, 0, 0, 0, 0, 0, 0, 0, 0, 5] 0 []).v.getD 0 0 = 3 ∧
    (5 - 3) % 256 = 2 ∧
    (tick (mkChip [0x8F, 0x05] [3, 0, 0, 0, 0, 0, 0, 0, 0, 0, 0, 0, 0, 0, 0, 5] 0 [])).map (fun c => c.v.getD 15 0) = .ok 1 := by
  decide

/-- C2 witness: the amended theorem applied at `x = 0`, `y = 1`, `a = 3`,
`b = 5` (a borrowing subtraction). -/
theorem C2_witness :
    ∃ c', tick (mkChip [0x80, 0x15] [3, 5, 0, 0, 0, 0, 0, 0, 0, 0, 0, 0, 0, 0, 0, 0] 0 []) = .ok c' ∧
      c'.v.getD 0xF 0 = (if 5 ≤ 3 then 1 else 0) ∧
      (0 ≠ 0xF → (c'.v.getD 0 0 : Int) = ((3 : Int) - (5 : Int)) % 256) ∧
      c'.pc = (mkChip [0x80, 0x15] [3, 5, 0, 0, 0, 0, 0, 0, 0, 0, 0, 0, 0, 0, 0, 0] 0 []).pc + 2 :=
  C2_sub_vx_vy _ 0 1 3 5 (by decide) (by decide) (by decide) (by decide) (by decide)
    (by decide) (by decide) (by decide) (by decide) (by decide)

/-- C5 (amended): executing `SHR` (0x8xy6) with `b = V[y]` succeeds, reads
its operand from `V[y]`, sets `V[0xF]` to the least significant bit `b % 2`
of the input, advances `pc` by the fetch, and — provided `x ≠ 0xF`, since
the flag is written after the shifted result — writes `b / 2` (that is,
`b >> 1`) to `V[x]`. -/
theorem C5_shr_vx_vy (c : Chip) (x y b : Nat)
    (hx : x < 16) (hy : y < 16) (hv : c.v.length = 16)
    (hpc : c.pc % 2 = 0) (hm : c.pc + 2 ≤ c.memory.length)
    (hinst : instAt c = 0x8000 + x * 256 + y * 16 + 6)
    (hb : c.v.getD y 0 = b) :
    ∃ c', tick c = .ok c' ∧
      c'.v.getD 0xF 0 = b % 2 ∧
      (x ≠ 0xF → c'.v.getD x 0 = b / 2) ∧
      c'.pc = c.pc + 2 := by
  rw [tick_eq c hpc hm, hinst, exec_8 _ _ (by omega)]
  have hX : (0x8000 + x * 256 + y * 16 + 6) / 0x100 % 0x10 = x := by omega
  have hY : (0x8000 + x * 256 + y * 16 + 6) / 0x10 % 0x10 = y := by omega
  have hOp : (0x8000 + x * 256 + y * 16 + 6) % 0x10 = 6 := by omega
  rw [hX, hY, hOp]
  unfold exec8
  refine ⟨_, rfl, ?_, ?_, rfl⟩
  · rw [getD_set_self _ _ _ (by rw [List.length_set, hv]; omega), hb]
  · intro hxF
    rw [getD_set_ne _ _ _ _ hxF, getD_set_self _ _ _ (by rw [hv]; omega), hb]

/-- C5 counterexample: with `x = 0xF` the flag write lands after the shifted
result, so `V[x]` does not end up as `b >> 1`: with `V[0x0] = 179` the
instruction 0x8F06 leaves `V[0xF] = 1` (the carried-out bit), not
`179 >> 1 = 89` as the claim requires. -/
theorem C5_counterexample :
    instAt (mkChip [0x8F, 0x06] [179, 0, 0, 0, 0, 0, 0, 0, 0, 0, 0, 0, 0, 0, 0, 0] 0 []) = 0x8000 + 15 * 256 + 0 * 16 + 6 ∧
    (mkChip [0x8F, 0x06] [179, 0, 0, 0, 0, 0, 0, 0, 0, 0, 0, 0, 0, 0, 0, 0] 0 []).v.getD 0 0 = 179 ∧
    179 / 2 = 89 ∧
    (tick (mkChip [0x8F, 0x06] [179, 0, 0, 0, 0, 0, 0, 0, 0, 0, 0, 0, 0, 0, 0, 0] 0 [])).map (fun c => c.v.getD 15 0) = .ok 1 := by
  decide

/-- C5 witness: the amended theorem applied at `x = 2`, `y = 0`,
`b = 179 = 0b10110011`: result 89, flag 1. -/
theorem C5_witness :
    ∃ c', tick (mkChip [0x82, 0x06] [179, 0, 0, 0, 0, 0, 0, 0, 0, 0, 0, 0, 0, 0, 0, 0] 0 []) = .ok c' ∧
      c'.v.getD 0xF 0 = 179 % 2 ∧
      (2 ≠ 0xF → c'.v.getD 2 0 = 179 / 2) ∧
      c'.pc = (mkChip [0x82, 0x06] [179, 0, 0, 0, 0, 0, 0, 0, 0, 0, 0, 0, 0, 0, 0, 0] 0 []).pc + 2 :=
  C5_shr_vx_vy _ 2 0 179 (by decide) (by decide) (by decide) (by decide) (by decide)
    (by decide) (by decide)

/-- C3 (amended): a `DRW` whose sprite reaches row 32 or below — some row
`r < n` with `V[y] + r ≥ 32` — faults out of bounds: the linear index
`(V[y]+r)*64 + …` is at or past the end of the 2048-entry frame buffer. -/
theorem C3_drw_vertical_oob (c : Chip) (r : Nat)
    (hpc : c.pc % 2 = 0) (hm : c.pc + 2 ≤ c.memory.length)
    (hs : c.screen.length = 64 * 32)
    (hD : instAt c / 0x1000 = 0xD)
    (hr : r < instAt c % 0x10)
    (hy : 32 ≤ c.v.getD (instAt c / 0x10 % 0x10) 0 + r) :
    tick c = .error .oob := by
  rw [tick_eq c hpc hm, exec_D _ _ hD]
  simp only []
  rw [drawSprite_row_oob _ _ _ _ _ _ r hs hr hy]

/-- C8: a `DRW` step that completes without fault changes nothing but the
frame buffer and the fetch's `pc` advance: every register (in particular the
flag `V[0xF]`), the index register, the memory, the stack and `sp` are left
exactly as they were — no collision flag is ever set. -/
theorem C8_drw_frame_effect (c c' : Chip)
    (hpc : c.pc % 2 = 0) (hm : c.pc + 2 ≤ c.memory.length)
    (hD : instAt c / 0x1000 = 0xD)
    (h : tick c = .ok c') :
    c'.v = c.v ∧ c'.i = c.i ∧ c'.memory = c.memory ∧ c'.stack = c.stack ∧
      c'.sp = c.sp ∧ c'.pc = c.pc + 2 := by
  rw [tick_eq c hpc hm, exec_D _ _ hD] at h
  split at h
  · cases h
    exact ⟨rfl, rfl, rfl, rfl, rfl, rfl⟩
  · cases h

/-- C6: from any state with a free stack slot (`sp < 16`) and an aligned
`pc`, a `CALL nnn` followed by a `RET` fetched from `nnn` restores `pc` to
the address of the instruction following the `CALL` (the `pc` right after
the fetch of the `CALL`) and restores `sp` to its pre-`CALL` value. -/
theorem C6_call_ret_roundtrip (c : Chip) (nnn : Nat)
    (hsp : c.sp < 16) (hstk : c.stack.length = 16)
    (hpc : c.pc % 2 = 0) (hm : c.pc + 2 ≤ c.memory.length)
    (hinst : instAt c = 0x2000 + nnn) (hn : nnn < 0x1000)
    (hn2 : nnn % 2 = 0) (hnm : nnn + 2 ≤ c.memory.length)
    (hb0 : c.memory.getD nnn 0 = 0x00) (hb1 : c.memory.getD (nnn + 1) 0 = 0xEE) :
    ∃ c1 c2, tick c = .ok c1 ∧ tick c1 = .ok c2 ∧ c2.pc = c.pc + 2 ∧ c2.sp = c.sp := by
  refine ⟨{ c with pc := nnn, sp := c.sp + 1, stack := c.stack.set c.sp (c.pc + 2) },
          { c with pc := c.pc + 2, sp := c.sp, stack := c.stack.set c.sp (c.pc + 2) },
          ?_, ?_, rfl, rfl⟩
  · rw [tick_eq c hpc hm, hinst, exec_CALL _ _ (by omega)]
    simp only []
    rw [if_pos (show c.sp < c.stack.length by omega)]
    have hmod : (0x2000 + nnn) % 0x1000 = nnn := by omega
    rw [hmod]
  · have hpc1 : ({ c with pc := nnn, sp := c.sp + 1, stack := c.stack.set c.sp (c.pc + 2) } : Chip).pc % 2 = 0 := hn2
    have hm1 : ({ c with pc := nnn, sp := c.sp + 1, stack := c.stack.set c.sp (c.pc + 2) } : Chip).pc + 2 ≤ ({ c with pc := nnn, sp := c.sp + 1, stack := c.stack.set c.sp (c.pc + 2) } : Chip).memory.length := hnm
    rw [tick_eq _ hpc1 hm1]
    have hinst1 : instAt { c with pc := nnn, sp := c.sp + 1, stack := c.stack.set c.sp (c.pc + 2) } = 0x00EE := by
      unfold instAt
      simp only []
      rw [hb0, hb1]
    rw [hinst1, exec_RET]
    simp only []
    rw [if_neg (show ¬ (c.sp + 1 = 0) by omega)]
    rw [if_pos (show c.sp + 1 - 1 < (c.stack.set c.sp (c.pc + 2)).length by rw [List.length_set]; omega)]
    have hget : (c.stack.set c.sp (c.pc + 2)).getD (c.sp + 1 - 1) 0 = c.pc + 2 := by
      have he : c.sp + 1 - 1 = c.sp := rfl
      rw [he]
      exact getD_set_self _ _ _ (by omega)
    rw [hget]
    rfl

/-- C9: with `I..I+x` inside memory, `LD [I], Vx` (0xFx55) followed by
`LD Vx, [I]` (0xFx65) at the next instruction — with the stored block not
overlapping the two bytes of the second instruction — reproduces the original
values of registers `V[0]` through `V[x]` exactly. -/
theorem C9_store_load_roundtrip (c : Chip) (x : Nat)
    (hx : x < 16) (hv : c.v.length = 16)
    (hpc : c.pc % 2 = 0) (hm4 : c.pc + 4 ≤ c.memory.length)
    (hbound : c.i + x < c.memory.length)
    (hinst1 : instAt c = 0xF000 + x * 256 + 0x55)
    (hdisj : ∀ k, k ≤ x → c.i + k ≠ c.pc + 2 ∧ c.i + k ≠ c.pc + 3)
    (hby0 : c.memory.getD (c.pc + 2) 0 = 0xF0 + x)
    (hby1 : c.memory.getD (c.pc + 3) 0 = 0x65) :
    ∃ c1 c2, tick c = .ok c1 ∧ tick c1 = .ok c2 ∧
      ∀ k, k ≤ x → c2.v.getD k 0 = c.v.getD k 0 := by
  obtain ⟨m, hm', hlen, hin, hout⟩ :=
    storeRegs_ok c.memory c.v c.i (x + 1) (fun k hk => by omega)
  obtain ⟨w, hw, hwlen, hwin, hwout⟩ :=
    loadRegs_ok m c.v c.i (x + 1) (fun k hk => by rw [hlen]; omega)
  have hX55 : (0xF000 + x * 256 + 0x55) / 0x100 % 0x10 = x := by omega
  have hX65 : (0xF000 + x * 256 + 0x65) / 0x100 % 0x10 = x := by omega
  refine ⟨{ c with pc := c.pc + 2, memory := m },
          { c with pc := c.pc + 2 + 2, memory := m, v := w }, ?_, ?_, ?_⟩
  · rw [tick_eq c hpc (by omega), hinst1, exec_F55 _ _ (by omega) (by omega)]
    simp only []
    rw [hX55, hm']
  · have hpc1 : ({ c with pc := c.pc + 2, memory := m } : Chip).pc % 2 = 0 := by
      show (c.pc + 2) % 2 = 0
      omega
    have hm1 : ({ c with pc := c.pc + 2, memory := m } : Chip).pc + 2 ≤ ({ c with pc := c.pc + 2, memory := m } : Chip).memory.length := by
      show c.pc + 2 + 2 ≤ m.length
      rw [hlen]
      omega
    have hinst2 : instAt { c with pc := c.pc + 2, memory := m } = 0xF000 + x * 256 + 0x65 := by
      show m.getD (c.pc + 2) 0 * 256 + m.getD (c.pc + 2 + 1) 0 = 0xF000 + x * 256 + 0x65
      have he : c.pc + 2 + 1 = c.pc + 3 := rfl
      rw [he]
      rw [hout (c.pc + 2) (fun k hk => (hdisj k (by omega)).1.symm)]
      rw [hout (c.pc + 3) (fun k hk => (hdisj k (by omega)).2.symm)]
      rw [hby0, hby1]
      ring
    rw [tick_eq _ hpc1 hm1, hinst2, exec_F65 _ _ (by omega) (by omega)]
    simp only []
    rw [hX65, hw]
  · intro k hk
    show w.getD k 0 = c.v.getD k 0
    rw [hwin k (by omega) (by omega), hin k (by omega)]

/-- Zeroing every element of a byte list (`fill(0)`) is the all-zero list of
the same length. -/
theorem map_zero_eq_replicate (l : List Nat) : (l.map fun _ => 0) = List.replicate l.length 0 := by
  induction l with
  | nil => rfl
  | cons a t ih => simp [List.replicate, ih]

/-- C10: `reset` zeroes the sixteen registers, the index register, both
timers, the sixteen-slot call stack and `sp`, and sets `pc = 0x200`, while
leaving memory and the frame buffer exactly as they were. -/
theorem C10_reset_effect (c : Chip) (hv : c.v.length = 16) (hstk : c.stack.length = 16) :
    c.reset.memory = c.memory ∧ c.reset.screen = c.screen ∧
    c.reset.v = List.replicate 16 0 ∧ c.reset.stack = List.replicate 16 0 ∧
    c.reset.i = 0 ∧ c.reset.delay_timer = 0 ∧ c.reset.sound_timer = 0 ∧
    c.reset.sp = 0 ∧ c.reset.pc = 0x200 := by
  refine ⟨rfl, rfl, ?_, ?_, rfl, rfl, rfl, rfl, rfl⟩
  · show (c.v.map fun _ => 0) = List.replicate 16 0
    rw [map_zero_eq_replicate, hv]
  · show (c.stack.map fun _ => 0) = List.replicate 16 0
    rw [map_zero_eq_replicate, hstk]

/-- C10 witness: `reset` applied to a machine with non-zero contents in
every component. -/
theorem C10_witness :
    ({ mkChip [7, 8] (List.replicate 16 3) 9 [true] with stack := List.replicate 16 5, sp := 4, pc := 6, delay_timer := 8, sound_timer := 2 } : Chip).reset.memory = [7, 8] ∧
    ({ mkChip [7, 8] (List.replicate 16 3) 9 [true] with stack := List.replicate 16 5, sp := 4, pc := 6, delay_timer := 8, sound_timer := 2 } : Chip).reset.screen = [true] ∧
    ({ mkChip [7, 8] (List.replicate 16 3) 9 [true] with stack := List.replicate 16 5, sp := 4, pc := 6, delay_timer := 8, sound_timer := 2 } : Chip).reset.v = List.replicate 16 0 ∧
    ({ mkChip [7, 8] (List.replicate 16 3) 9 [true] with stack := List.replicate 16 5, sp := 4, pc := 6, delay_timer := 8, sound_timer := 2 } : Chip).reset.stack = List.replicate 16 0 ∧
    ({ mkChip [7, 8] (List.replicate 16 3) 9 [true] with stack := List.replicate 16 5, sp := 4, pc := 6, delay_timer := 8, sound_timer := 2 } : Chip).reset.i = 0 ∧
    ({ mkChip [7, 8] (List.replicate 16 3) 9 [true] with stack := List.replicate 16 5, sp := 4, pc := 6, delay_timer := 8, sound_timer := 2 } : Chip).reset.delay_timer = 0 ∧
    ({ mkChip [7, 8] (List.replicate 16 3) 9 [true] with stack := List.replicate 16 5, sp := 4, pc := 6, delay_timer := 8, sound_timer := 2 } : Chip).reset.sound_timer = 0 ∧
    ({ mkChip [7, 8] (List.replicate 16 3) 9 [true] with stack := List.replicate 16 5, sp := 4, pc := 6, delay_timer := 8, sound_timer := 2 } : Chip).reset.sp = 0 ∧
    ({ mkChip [7, 8] (List.replicate 16 3) 9 [true] with stack := List.replicate 16 5, sp := 4, pc := 6, delay_timer := 8, sound_timer := 2 } : Chip).reset.pc = 0x200 :=
  C10_reset_effect _ (by decide) (by decide)

/-- C4 (amended): any instruction word outside the patterns the decode
chain actually checks — where the `0x5`, `0x9` and `0xD` families accept an
arbitrary low nibble — makes the step fail with the `todo!()` fault (an
unlisted `0x8xy_` sub-operation) or the unknown-opcode `panic!`; no other
operation is executed. -/
theorem C4_unknown_opcode_faults (c : Chip)
    (hpc : c.pc % 2 = 0) (hm : c.pc + 2 ≤ c.memory.length)
    (h : ¬ RecognizedCode (instAt c)) :
    tick c = .error .todoOp ∨ tick c = .error .unimplemented := by
  rw [tick_eq c hpc hm]
  unfold RecognizedCode at h
  push_neg at h
  obtain ⟨h1, h2, h3, h4, h5, h6, h7, h8, h9, h10, h11, h12, h13, h14⟩ := h
  unfold exec
  rw [if_neg h1, if_neg h2, if_neg h3, if_neg h4, if_neg h5, if_neg h6, if_neg h7,
    if_neg h8, if_neg h9]
  by_cases h8f : instAt c / 0x1000 = 0x8
  · rw [if_pos h8f]
    left
    have hops := h10 h8f
    have hop : instAt c % 0x10 = 8 ∨ instAt c % 0x10 = 9 ∨ instAt c % 0x10 = 10 ∨
        instAt c % 0x10 = 11 ∨ instAt c % 0x10 = 12 ∨ instAt c % 0x10 = 13 ∨
        instAt c % 0x10 = 15 := by omega
    rcases hop with ho | ho | ho | ho | ho | ho | ho <;> rw [ho] <;> rfl
  · rw [if_neg h8f, if_neg h11, if_neg h12, if_neg h13]
    have hf1 : ¬ (instAt c / 0x1000 = 0xF ∧ instAt c % 0x100 = 0x1E) := by
      intro hc; exact (h14 hc.1).1 hc.2
    have hf2 : ¬ (instAt c / 0x1000 = 0xF ∧ instAt c % 0x100 = 0x33) := by
      intro hc; exact (h14 hc.1).2.1 hc.2
    have hf3 : ¬ (instAt c / 0x1000 = 0xF ∧ instAt c % 0x100 = 0x55) := by
      intro hc; exact (h14 hc.1).2.2.1 hc.2
    have hf4 : ¬ (instAt c / 0x1000 = 0xF ∧ instAt c % 0x100 = 0x65) := by
      intro hc; exact (h14 hc.1).2.2.2 hc.2
    rw [if_neg hf1, if_neg hf2, if_neg hf3, if_neg hf4]
    right
    rfl

/-- C4 counterexample: 0x5011 matches none of the patterns listed in the spec
(`0x5xy0` requires a zero low nibble), yet the step does not fault: the
decode tests only the top nibble and executes `SE V0, V1`. -/
theorem C4_counterexample :
    ¬ RecognizedListed 0x5011 ∧
    instAt (mkChip [0x50, 0x11] (List.replicate 16 0) 0 []) = 0x5011 ∧
    stepOk (tick (mkChip [0x50, 0x11] (List.replicate 16 0) 0 [])) = true := by
  exact ⟨by decide, by decide, by decide⟩

/-- C4 witness: the amended theorem at the concrete unknown word 0xE123. -/
theorem C4_witness :
    tick (mkChip [0xE1, 0x23] (List.replicate 16 0) 0 []) = .error .todoOp ∨
    tick (mkChip [0xE1, 0x23] (List.replicate 16 0) 0 []) = .error .unimplemented :=
  C4_unknown_opcode_faults _ (by decide) (by decide) (by decide)

/-- C6 witness: `CALL 0x004` at `pc = 0` followed by the `RET` stored at
address 4 returns to `pc = 2` with `sp` back at 0. -/
theorem C6_witness :
    ∃ c1 c2, tick (mkChip [0x20, 0x04, 0x00, 0x00, 0x00, 0xEE] (List.replicate 16 0) 0 []) = .ok c1 ∧
      tick c1 = .ok c2 ∧
      c2.pc = (mkChip [0x20, 0x04, 0x00, 0x00, 0x00, 0xEE] (List.replicate 16 0) 0 []).pc + 2 ∧
      c2.sp = (mkChip [0x20, 0x04, 0x00, 0x00, 0x00, 0xEE] (List.replicate 16 0) 0 []).sp :=
  C6_call_ret_roundtrip _ 4 (by decide) (by decide) (by decide) (by decide) (by decide)
    (by decide) (by decide) (by decide) (by decide) (by decide)

/-- A concrete machine whose `DRW V0, V1, 1` draws the sprite row at
`V0 = 60`: columns 4–7 land at x-coordinates 64–67, outside the grid. -/
def chipHorizOver : Chip :=
  mkChip [0xD0, 0x11, 0xFF] ((List.replicate 16 0).set 0 60) 2 (List.replicate 2048 false)

/-- C3 witness: a `DRW V0, V1, 1` with `V1 = 32` addresses row 32 and
faults out of bounds. -/
theorem C3_witness :
    tick (mkChip [0xD0, 0x11] ((List.replicate 16 0).set 1 32) 2 (List.replicate 2048 false)) = .error .oob :=
  C3_drw_vertical_oob _ 0 (by decide) (by decide)
    (by show (List.replicate 2048 false : List Bool).length = 64 * 32
        rw [List.length_replicate]) (by decide) (by decide) (by decide)

/-- A one-row sprite loop is its single row step. -/
theorem drawSprite_one (mem : List Nat) (iReg x y : Nat) (s : List Bool) :
    drawSprite mem iReg x y 1 s =
      (if iReg + 0 < mem.length then drawRow (mem.getD (iReg + 0) 0) ((0 + y) * 64 + x) s
       else .error .oob) := rfl

/-- C3 counterexample: a drawn pixel with x-coordinate `60 + 7 = 67`, beyond
the 64-column grid (while the row `V[y] + 0 = 0` is on screen), does not
fault: the step completes, the out-of-range columns bleeding into the next
frame-buffer row instead of faulting, clipping or wrapping. -/
theorem C3_counterexample :
    instAt chipHorizOver / 0x1000 = 0xD ∧
    0 < instAt chipHorizOver % 0x10 ∧
    64 ≤ chipHorizOver.v.getD (instAt chipHorizOver / 0x100 % 0x10) 0 + 7 ∧
    chipHorizOver.v.getD (instAt chipHorizOver / 0x10 % 0x10) 0 + 0 < 32 ∧
    stepOk (tick chipHorizOver) = true := by
  refine ⟨by decide, by decide, by decide, by decide, ?_⟩
  rw [tick_eq _ (by decide) (by decide), exec_D _ _ (by decide)]
  simp only []
  have hmem : chipHorizOver.memory = [0xD0, 0x11, 0xFF] := rfl
  have hi : chipHorizOver.i = 2 := rfl
  have hscr : chipHorizOver.screen = List.replicate 2048 false := rfl
  have hgx : chipHorizOver.v.getD (instAt chipHorizOver / 0x100 % 0x10) 0 = 60 := by decide
  have hgy : chipHorizOver.v.getD (instAt chipHorizOver / 0x10 % 0x10) 0 = 0 := by decide
  have hnn : instAt chipHorizOver % 0x10 = 1 := by decide
  rw [hmem, hi, hscr, hgx, hgy, hnn]
  have hlen : (List.replicate 2048 false : List Bool).length = 2048 := by
    rw [List.length_replicate]
  obtain ⟨t, ht, htl⟩ := drawRow_ok 0xFF 60 (List.replicate 2048 false) (by rw [hlen]; omega)
  rw [drawSprite_one,
    if_pos (show 2 + 0 < ([0xD0, 0x11, 0xFF] : List Nat).length by norm_num)]
  have hb : ([0xD0, 0x11, 0xFF] : List Nat).getD (2 + 0) 0 = 0xFF := rfl
  have hoff : (0 + 0) * 64 + 60 = 60 := rfl
  rw [hb, hoff, ht]
  rfl

/-- C8 witness: a successful `DRW` at a concrete machine leaves registers,
index register, memory, stack and `sp` unchanged and advances `pc` by 2. -/
theorem C8_witness :
    ({ mkChip [0xD0, 0x11, 0xFF] (List.replicate 16 0) 2 (List.replicate 8 false) with pc := 2, screen := List.replicate 8 true } : Chip).v = (mkChip [0xD0, 0x11, 0xFF] (List.replicate 16 0) 2 (List.replicate 8 false)).v ∧
    ({ mkChip [0xD0, 0x11, 0xFF] (List.replicate 16 0) 2 (List.replicate 8 false) with pc := 2, screen := List.replicate 8 true } : Chip).i = (mkChip [0xD0, 0x11, 0xFF] (List.replicate 16 0) 2 (List.replicate 8 false)).i ∧
    ({ mkChip [0xD0, 0x11, 0xFF] (List.replicate 16 0) 2 (List.replicate 8 false) with pc := 2, screen := List.replicate 8 true } : Chip).memory = (mkChip [0xD0, 0x11, 0xFF] (List.replicate 16 0) 2 (List.replicate 8 false)).memory ∧
    ({ mkChip [0xD0, 0x11, 0xFF] (List.replicate 16 0) 2 (List.replicate 8 false) with pc := 2, screen := List.replicate 8 true } : Chip).stack = (mkChip [0xD0, 0x11, 0xFF] (List.replicate 16 0) 2 (List.replicate 8 false)).stack ∧
    ({ mkChip [0xD0, 0x11, 0xFF] (List.replicate 16 0) 2 (List.replicate 8 false) with pc := 2, screen := List.replicate 8 true } : Chip).sp = (mkChip [0xD0, 0x11, 0xFF] (List.replicate 16 0) 2 (List.replicate 8 false)).sp ∧
    ({ mkChip [0xD0, 0x11, 0xFF] (List.replicate 16 0) 2 (List.replicate 8 false) with pc := 2, screen := List.replicate 8 true } : Chip).pc = (mkChip [0xD0, 0x11, 0xFF] (List.replicate 16 0) 2 (List.replicate 8 false)).pc + 2 :=
  C8_drw_frame_effect _ _ (by decide) (by decide) (by decide) (by decide)

/-- C9 witness: storing `V0, V1` at `I = 8` and loading them back (the two
instructions at addresses 0 and 2) reproduces `V0 = 7`, `V1 = 13`. -/
theorem C9_witness :
    ∃ c1 c2, tick (mkChip [0xF1, 0x55, 0xF1, 0x65, 9, 9, 9, 9, 0, 0, 0, 0] ((List.replicate 16 0).set 0 7 |>.set 1 13) 8 []) = .ok c1 ∧
      tick c1 = .ok c2 ∧
      ∀ k, k ≤ 1 →
        c2.v.getD k 0 = (mkChip [0xF1, 0x55, 0xF1, 0x65, 9, 9, 9, 9, 0, 0, 0, 0] ((List.replicate 16 0).set 0 7 |>.set 1 13) 8 []).v.getD k 0 :=
  C9_store_load_roundtrip _ 1 (by decide) (by decide) (by decide) (by decide) (by decide)
    (by decide) (by decide) (by decide) (by decide)
